import Mathlib

/-!
Shallow embedding of the triage front-end of `src/static/app.js`
(the canonical variant: the one with filters, gamepad input and the
rich export schema).

The JS module keeps mutable module-level state:
  `allItems`     : the master list produced by `loadManifest`,
  `images`       : the active filtered view (an array of references into
                   the very same item objects),
  `currentIndex` : the cursor into `images`,
  `history`      : the undo stack of `{index, prev}` records.

Item objects are shared by reference between `allItems` and `images`, so a
`status` write through the view is visible through the master list.  The
embedding makes that aliasing explicit: `allItems` holds the immutable
metadata, a parallel `statuses` list holds the mutable `status` fields
(indexed by master position), and the view is a list of master indices.
`history` is modelled with the most recent entry at the head (JS pushes and
pops at the end of the array).

Numbers that only ever flow through `lat`/`lon` are modelled as `Int`; the
code never does arithmetic on them (only null-checks and display), so the
carrier is irrelevant to every claim below.  `localeCompare` on the
ISO-8601 date strings is modelled as the lexicographic order on `String`.
-/

namespace PictureSorter

/-- The `item.type` field: `"image" | "video"` (per the manifest schema;
`normalizeEntry` defaults a missing field to `"image"`). -/
inductive Kind
  | image
  | video
deriving DecidableEq, Repr

/-- The non-null disposition values a decision button can assign. -/
inductive Action
  | favorite
  | like
  | later
  | delete
deriving DecidableEq, Repr

/-- The immutable part of a normalized manifest entry (`normalizeEntry`):
everything except the mutable `status` field, which lives in
`State.statuses`.  The `url` field is dropped: it is derived display data
no claim mentions. -/
structure Entry where
  name : String
  dateTaken : Option String
  originalDate : Option String
  lat : Option Int
  lon : Option Int
  type : Kind
deriving DecidableEq, Repr

instance : Inhabited Entry := ⟨⟨"", none, none, none, none, Kind.image⟩⟩

/-- One element of `history`: `{ index: currentIndex, prev }` as pushed by
`setStatus`.  `index` is an index into the view that was active when the
entry was recorded. -/
structure UndoEntry where
  index : Nat
  prev : Option Action
deriving DecidableEq, Repr

/-- The `filterSelect` modes. -/
inductive FilterMode
  | all
  | image
  | video
deriving DecidableEq, Repr

/-- The module-level mutable state of `app.js`. -/
structure State where
  allItems : List Entry
  statuses : List (Option Action)
  view : List Nat
  currentIndex : Nat
  history : List UndoEntry
deriving DecidableEq, Repr

/-- Which items a filter mode keeps:
`image` keeps `item.type !== "video"`, `video` keeps `item.type === "video"`,
`all` keeps everything (`applyFilter`, lines 79–84). -/
def matchesMode (mode : FilterMode) (k : Kind) : Bool :=
  match mode with
  | FilterMode.image => k ≠ Kind.video
  | FilterMode.video => k = Kind.video
  | FilterMode.all => true

/-- The filtered view, as master indices in master order
(`allItems.filter(...)` / `[...allItems]` preserves order and aliases the
items, which index-lists model exactly). -/
def filterIndices (mode : FilterMode) (items : List Entry) : List Nat :=
  (List.range items.length).filter fun i => matchesMode mode (items.getD i default).type

/-- Model of `applyFilter(mode)` (lines 77–95).  `previousItem` is read from the OLD
view before `images` is reassigned; on an empty new view the function
returns early (hiding the app) without touching `currentIndex`; otherwise
the cursor is the identity-based `indexOf` of the previous item if found,
else 0. -/
def applyFilter (mode : FilterMode) (s : State) : State :=
  let previousItem := s.view[s.currentIndex]?
  let newView := filterIndices mode s.allItems
  if newView.isEmpty then
    { s with view := newView }
  else
    let idx : Nat :=
      match previousItem with
      | some p => if p ∈ newView then newView.indexOf p else 0
      | none => 0
    { s with view := newView, currentIndex := idx }

/-- Model of `next()` (lines 185–192): advance if not at the last position; the JS
`currentIndex < images.length - 1` agrees with the truncated `Nat`
subtraction (both are false when the view is empty). -/
def next (s : State) : State :=
  if s.currentIndex < s.view.length - 1 then
    { s with currentIndex := s.currentIndex + 1 }
  else s

/-- Model of `prev()` (lines 194–201). -/
def prev (s : State) : State :=
  if s.currentIndex > 0 then
    { s with currentIndex := s.currentIndex - 1 }
  else s

/-- Model of `setStatus(action)` (lines 170–183): no-op on an empty view; read the
current item; if its status differs from `action`, write the new status and
push `{index: currentIndex, prev}`; then try to advance (`next()`).
When `currentIndex` is out of bounds of a non-empty view the JS code would
throw on `undefined.status` before mutating anything, so the embedding
returns the state unchanged in that (unreachable, see the cursor
invariant) branch. -/
def setStatus (action : Action) (s : State) : State :=
  if s.view.isEmpty then s
  else
    match s.view[s.currentIndex]? with
    | none => s
    | some mi =>
      let previous := s.statuses.getD mi none
      let s' :=
        if previous ≠ some action then
          { s with
              statuses := s.statuses.set mi (some action),
              history := ⟨s.currentIndex, previous⟩ :: s.history }
        else s
      next s'

/-- Model of `undo()` (lines 203–210): pop the most recent history entry (no-op when
empty); then `images[last.index].status = last.prev; currentIndex =
last.index`.  When `last.index` is out of bounds of the CURRENT view the JS
code throws a TypeError after the pop and before either write, so the
embedding keeps only the pop in that branch. -/
def undo (s : State) : State :=
  match s.history with
  | [] => s
  | last :: rest =>
    match s.view[last.index]? with
    | some mi =>
      { s with
          statuses := s.statuses.set mi last.prev,
          currentIndex := last.index,
          history := rest }
    | none => { s with history := rest }

/-- The comparator of `loadManifest` (line 66):
`(b.dateTaken || "").localeCompare(a.dateTaken || "")`, i.e. `a` may come
before `b` iff `b`'s key is at most `a`'s key (dateTaken descending, null
as the empty string).  The string order is stated on `.data`, the
lexicographic order on the character list, which is propositionally the
same order as `String.le` (`String.le_iff_toList_le`) but reduces in the
kernel.  JS `Array.prototype.sort` is stable, which `List.insertionSort`
with this reflexive-on-ties relation realises. -/
def manifestOrder (a b : Entry) : Prop :=
  (b.dateTaken.getD "").data ≤ (a.dateTaken.getD "").data

instance : DecidableRel manifestOrder := fun a b =>
  inferInstanceAs (Decidable ((b.dateTaken.getD "").data ≤ (a.dateTaken.getD "").data))

instance : IsTotal Entry manifestOrder :=
  ⟨fun _ _ => le_total _ _⟩

instance : IsTrans Entry manifestOrder :=
  ⟨fun _ _ _ hab hbc => le_trans hbc hab⟩

/-- Model of `loadManifest` (lines 60–75) on a successful fetch: map the raw entries
through `normalizeEntry` (here: the entries are already given in normalized
form, each starting with `status: null`), sort stably by dateTaken
descending, reset cursor and history, then `applyFilter` with the selected
mode.  The old `images` array holds none of the freshly created objects, so
`applyFilter`'s `previousItem` lookup never matches; starting it from an
empty view models that. -/
def loadManifest (entries : List Entry) (mode : FilterMode) : State :=
  let sorted := List.insertionSort manifestOrder entries
  applyFilter mode
    { allItems := sorted,
      statuses := List.replicate sorted.length none,
      view := [],
      currentIndex := 0,
      history := [] }

/-- The single command surface driving the state machine (buttons, keys and
gamepad all dispatch into these five handlers). -/
inductive Cmd
  | set (a : Action)
  | fwd
  | bwd
  | undoCmd
  | filter (mode : FilterMode)
deriving DecidableEq, Repr

def execCmd : Cmd → State → State
  | Cmd.set a, s => setStatus a s
  | Cmd.fwd, s => next s
  | Cmd.bwd, s => prev s
  | Cmd.undoCmd, s => undo s
  | Cmd.filter m, s => applyFilter m s

def execCmds (cs : List Cmd) (s : State) : State :=
  cs.foldl (fun t c => execCmd c t) s

/-- Commands the undo-law claim allows between the `SetDisposition` calls:
disposition assignment and Next/Prev navigation, no filter change and no
interleaved undo. -/
def isTriage : Cmd → Bool
  | Cmd.set _ => true
  | Cmd.fwd => true
  | Cmd.bwd => true
  | _ => false

/-- Iterated `undo`, applied `n` times. -/
def undoN : Nat → State → State
  | 0, s => s
  | n + 1, s => undoN n (undo s)

/-- One element of the `decisions` payload built by the export click
handler (lines 252–261). -/
structure Decision where
  index : Nat
  name : String
  status : Option Action
  lat : Option Int
  lon : Option Int
  dateTaken : Option String
  originalDate : Option String
  type : Kind
deriving DecidableEq, Repr

/-- Model of `allItems.map((img, idx) => ({...}))`: one record per master item, in
master order, reading the shared `status` field (here `statuses`). -/
def exportPayload (s : State) : List Decision :=
  s.allItems.enum.map fun p =>
    { index := p.1,
      name := p.2.name,
      status := s.statuses.getD p.1 none,
      lat := p.2.lat,
      lon := p.2.lon,
      dateTaken := p.2.dateTaken,
      originalDate := p.2.originalDate,
      type := p.2.type }

/-- The export click handler (lines 250–282): `if (!images.length) return;`
guards on the active VIEW; otherwise the payload is built from `allItems`
and POSTed.  `none` = nothing sent. -/
def exportDecisions (s : State) : Option (List Decision) :=
  if s.view.isEmpty then none else some (exportPayload s)

/-- The observable outcome of `updateMap(image)` (lines 115–131): the map
branch with a marker at (lat, lon), or the "No location available"
branch. -/
inductive MapView
  | marker (lat lon : Int)
  | noLocation
deriving DecidableEq, Repr

/-- Model of `updateMap`: the code decides by `image.lat != null && image.lon != null`. -/
def updateMap (image : Entry) : MapView :=
  match image.lat, image.lon with
  | some la, some lo => MapView.marker la lo
  | _, _ => MapView.noLocation

/-- The ordering/uniqueness property claim C1 asserts of the working list,
written from the SPEC's words (not from the code): unique by filename, and
sorted by captureDate descending with ties broken by filename ascending. -/
def specManifestOrdered (l : List Entry) : Prop :=
  (l.map Entry.name).Nodup ∧
    l.Pairwise fun a b =>
      (b.dateTaken.getD "").data < (a.dateTaken.getD "").data ∨
        ((b.dateTaken.getD "").data = (a.dateTaken.getD "").data ∧
          a.name.data ≤ b.name.data)

instance (l : List Entry) : Decidable (specManifestOrdered l) :=
  inferInstanceAs (Decidable (_ ∧ _))

/-! ### Basic facts about the operations -/

theorem applyFilter_allItems (mode : FilterMode) (s : State) :
    (applyFilter mode s).allItems = s.allItems := by
  unfold applyFilter
  dsimp only
  split <;> rfl

theorem applyFilter_statuses (mode : FilterMode) (s : State) :
    (applyFilter mode s).statuses = s.statuses := by
  unfold applyFilter
  dsimp only
  split <;> rfl

theorem applyFilter_history (mode : FilterMode) (s : State) :
    (applyFilter mode s).history = s.history := by
  unfold applyFilter
  dsimp only
  split <;> rfl

theorem applyFilter_view (mode : FilterMode) (s : State) :
    (applyFilter mode s).view = filterIndices mode s.allItems := by
  unfold applyFilter
  dsimp only
  split <;> rfl

theorem mem_filterIndices_lt (mode : FilterMode) (items : List Entry) (x : Nat)
    (hx : x ∈ filterIndices mode items) : x < items.length := by
  unfold filterIndices at hx
  exact List.mem_range.mp (List.mem_filter.mp hx).1

theorem loadManifest_allItems (entries : List Entry) (mode : FilterMode) :
    (loadManifest entries mode).allItems = List.insertionSort manifestOrder entries := by
  unfold loadManifest
  exact applyFilter_allItems mode _

theorem loadManifest_statuses (entries : List Entry) (mode : FilterMode) :
    (loadManifest entries mode).statuses = List.replicate entries.length none := by
  unfold loadManifest
  rw [applyFilter_statuses]
  rw [List.length_insertionSort]

theorem loadManifest_history (entries : List Entry) (mode : FilterMode) :
    (loadManifest entries mode).history = [] := by
  unfold loadManifest
  exact applyFilter_history mode _

/-- Writing back the value already stored at a valid index is the
identity. -/
theorem set_getD_self {α : Type} (l : List α) (i : Nat) (d : α) (h : i < l.length) :
    l.set i (l.getD i d) = l := by
  apply List.ext_getElem (by simp)
  intro j h1 h2
  rw [List.getElem_set]
  split
  · next heq =>
    subst heq
    simp [List.getD_eq_getElem?_getD, List.getElem?_eq_getElem h]
  · rfl

/-! ### C1 — manifest order on load -/

def c1TieB : Entry :=
  { name := "b", dateTaken := some "2024-01-01", originalDate := none,
    lat := none, lon := none, type := Kind.image }

def c1TieA : Entry :=
  { name := "a", dateTaken := some "2024-01-01", originalDate := none,
    lat := none, lon := none, type := Kind.image }

/-- C1 (counterexample): the claim "the working list is unique by filename
and totally ordered by captureDate descending with ties broken by filename
ascending, for any input set" is false on the code.  `loadManifest` sorts
only by dateTaken; on the two-entry input with equal dates and names
`"b", "a"` the stable sort keeps the input order `b, a`, violating the
filename-ascending tie-break; and the duplicate-filename input `[a, a]`
survives untouched, violating uniqueness. -/
theorem c1_counterexample :
    (loadManifest [c1TieB, c1TieA] FilterMode.all).allItems = [c1TieB, c1TieA] ∧
    ¬ specManifestOrdered ((loadManifest [c1TieB, c1TieA] FilterMode.all).allItems) ∧
    (loadManifest [c1TieA, c1TieA] FilterMode.all).allItems = [c1TieA, c1TieA] ∧
    ¬ specManifestOrdered ((loadManifest [c1TieA, c1TieA] FilterMode.all).allItems) := by
  decide

/-- C1 (amended): for any input entries and filter mode, the loaded working
list is a permutation of the input (in particular duplicate filenames are
kept) sorted by captureDate descending with null ordered as the empty
string; entries whose relative order the comparator already allows — ties
included — keep their input order (JS sort is stable), rather than being
re-ordered by filename. -/
theorem c1_amended (entries : List Entry) (mode : FilterMode) :
    ((loadManifest entries mode).allItems).Sorted manifestOrder ∧
    ((loadManifest entries mode).allItems).Perm entries ∧
    (∀ a b : Entry, [a, b].Sublist entries → manifestOrder a b →
      [a, b].Sublist (loadManifest entries mode).allItems) := by
  rw [loadManifest_allItems]
  refine ⟨List.sorted_insertionSort manifestOrder entries,
          List.perm_insertionSort manifestOrder entries, ?_⟩
  intro a b hsub hab
  exact List.sublist_insertionSort (by simp [hab]) hsub

/-- Closed instance of `c1_amended`, with the inner hypotheses discharged:
on a concrete tied input the pair keeps its input order in the output. -/
theorem c1_amended_witness :
    [c1TieB, c1TieA].Sublist (loadManifest [c1TieB, c1TieA] FilterMode.all).allItems :=
  (c1_amended [c1TieB, c1TieA] FilterMode.all).2.2 c1TieB c1TieA
    (List.Sublist.refl _) (by decide)

/-! ### C2 — undo across a filter change -/

def c2ImgA : Entry :=
  { name := "a", dateTaken := some "2024-02-01", originalDate := none,
    lat := none, lon := none, type := Kind.image }

def c2VidB : Entry :=
  { name := "b", dateTaken := some "2024-01-01", originalDate := none,
    lat := none, lon := none, type := Kind.video }

/-- The failing interaction: in the all view mark item 0 (image a) `like`,
switch to the video view, mark the video b `favorite` (recorded as history
entry `{index: 0, prev: null}` — an index into the VIDEO view), switch back
to the all view, undo. -/
def c2Trace : List Cmd :=
  [Cmd.set Action.like, Cmd.filter FilterMode.video, Cmd.set Action.favorite,
   Cmd.filter FilterMode.all, Cmd.undoCmd]

/-- C2 (code-bug evaluation): `undo` dereferences the recorded
view-relative index in the view that is CURRENT at undo time.  Before the
undo the statuses are `[like, favorite]` and the most recent history entry
is `{index: 0, prev: null}`, recorded for the video (master item 1).  The
undo should restore the video's disposition to null and move the cursor to
it; instead it erases item 0's `like` (an item it never recorded), leaves
the video `favorite`, and puts the cursor on item 0. -/
theorem c2_undo_wrong_item :
    (execCmds (c2Trace.take 4) (loadManifest [c2ImgA, c2VidB] FilterMode.all)).statuses
        = [some Action.like, some Action.favorite] ∧
    (execCmds (c2Trace.take 4) (loadManifest [c2ImgA, c2VidB] FilterMode.all)).history
        = [⟨0, none⟩, ⟨0, none⟩] ∧
    execCmds c2Trace (loadManifest [c2ImgA, c2VidB] FilterMode.all)
        = undo (execCmds (c2Trace.take 4) (loadManifest [c2ImgA, c2VidB] FilterMode.all)) ∧
    (execCmds c2Trace (loadManifest [c2ImgA, c2VidB] FilterMode.all)).statuses
        = [none, some Action.favorite] ∧
    (execCmds c2Trace (loadManifest [c2ImgA, c2VidB] FilterMode.all)).currentIndex = 0 := by
  decide

/-! ### C9 — partial GPS handling -/

/-- C9: `updateMap` takes the marker branch iff both `lat` and `lon` are
non-null; an item with exactly one of them non-null lands in the
no-location branch, exactly like an item with both null. -/
theorem c9_partial_gps (image : Entry) :
    (updateMap image = MapView.noLocation ↔ (image.lat = none ∨ image.lon = none)) ∧
    ((image.lat = none ∨ image.lon = none) →
      updateMap image = updateMap { image with lat := none, lon := none }) ∧
    (∀ la lo : Int, updateMap image = MapView.marker la lo ↔
      (image.lat = some la ∧ image.lon = some lo)) := by
  rcases image with ⟨n, dt, od, la?, lo?, k⟩
  cases la? <;> cases lo? <;> simp [updateMap]

/-- Closed instance of `c9_partial_gps`: an item with only a latitude is
rendered without a marker. -/
theorem c9_partial_gps_witness :
    updateMap { name := "p", dateTaken := none, originalDate := none,
                lat := some 47, lon := none, type := Kind.image }
      = MapView.noLocation :=
  (c9_partial_gps _).1.mpr (Or.inr rfl)

/-! ### C10 — empty view guards -/

/-- C10: with an empty active view, the export handler returns before
sending anything, and `setStatus` returns before touching any state — even
when the master list is non-empty and carries dispositions. -/
theorem c10_empty_view (s : State) (h : s.view = []) :
    exportDecisions s = none ∧ ∀ a : Action, setStatus a s = s := by
  constructor
  · simp [exportDecisions, h]
  · intro a
    simp [setStatus, h]

def c10State : State :=
  { allItems := [{ name := "kept", dateTaken := none, originalDate := none,
                   lat := none, lon := none, type := Kind.image }],
    statuses := [some Action.favorite],
    view := [],
    currentIndex := 0,
    history := [] }

/-- Closed instance of `c10_empty_view` at a state with a non-empty master
list holding an assigned disposition. -/
theorem c10_empty_view_witness :
    exportDecisions c10State = none ∧ setStatus Action.delete c10State = c10State :=
  ⟨(c10_empty_view c10State rfl).1, (c10_empty_view c10State rfl).2 Action.delete⟩

/-! ### C4 — idempotence of repeated SetDisposition -/

/-- C4: `setStatus` auto-advances, so two consecutive calls hit the same
item exactly when the cursor sits on the last view position
(`currentIndex + 1 = view.length`).  There, a first effective call pushes
exactly one undo entry, and the identical second call changes nothing at
all: no second entry, no disposition change, no cursor move. -/
theorem c4_idempotent (s : State) (a : Action) (mi : Nat)
    (hcur : s.view[s.currentIndex]? = some mi)
    (hlen : mi < s.statuses.length)
    (hdiff : s.statuses.getD mi none ≠ some a)
    (hlast : s.currentIndex + 1 = s.view.length) :
    (setStatus a s).history.length = s.history.length + 1 ∧
    setStatus a (setStatus a s) = setStatus a s := by
  obtain ⟨hlt, -⟩ := List.getElem?_eq_some.mp hcur
  have hempty : s.view.isEmpty = false :=
    List.isEmpty_eq_false.mpr
      (List.ne_nil_of_length_pos (Nat.lt_of_le_of_lt (Nat.zero_le _) hlt))
  have hnoadv : ¬ s.currentIndex < s.view.length - 1 := by omega
  have hdiff' : s.statuses[mi]?.getD none ≠ some a := by
    simpa [List.getD_eq_getElem?_getD] using hdiff
  have h1 : setStatus a s =
      { s with
          statuses := s.statuses.set mi (some a),
          history := ⟨s.currentIndex, s.statuses[mi]?.getD none⟩ :: s.history } := by
    simp [setStatus, next, hempty, hcur, hdiff', hnoadv]
  have hget2 : (s.statuses.set mi (some a))[mi]?.getD none = some a := by
    rw [List.getElem?_set_self hlen]
    rfl
  refine ⟨by rw [h1]; rfl, ?_⟩
  rw [h1]
  simp [setStatus, next, hempty, hcur, hget2, hnoadv]

def c4State : State :=
  { allItems := [{ name := "solo", dateTaken := none, originalDate := none,
                   lat := none, lon := none, type := Kind.image }],
    statuses := [none],
    view := [0],
    currentIndex := 0,
    history := [] }

/-- Closed instance of `c4_idempotent` on a one-item session. -/
theorem c4_idempotent_witness :
    (setStatus Action.favorite c4State).history.length = c4State.history.length + 1 ∧
    setStatus Action.favorite (setStatus Action.favorite c4State)
      = setStatus Action.favorite c4State :=
  c4_idempotent c4State Action.favorite 0 (by decide) (by decide) (by decide) (by decide)

/-! ### C6 / C7 — filter switching -/

/-- In the all mode the recomputed view is the whole master index list. -/
theorem filterIndices_all (items : List Entry) :
    filterIndices FilterMode.all items = List.range items.length := by
  unfold filterIndices matchesMode
  simp

/-- When the previous current item survives into the non-empty new view,
`applyFilter` puts the cursor back on that same item. -/
theorem applyFilter_found (mode : FilterMode) (s : State) (p : Nat)
    (hcur : s.view[s.currentIndex]? = some p)
    (hpres : p ∈ filterIndices mode s.allItems) :
    (applyFilter mode s).view[(applyFilter mode s).currentIndex]? = some p := by
  have hne : (filterIndices mode s.allItems).isEmpty = false :=
    List.isEmpty_eq_false.mpr (List.ne_nil_of_mem hpres)
  simp only [applyFilter, hcur, hne, Bool.false_eq_true, if_false, hpres, if_true]
  simpa using List.getElem?_indexOf hpres

/-- When the previous current item does not survive into the non-empty new
view (or there was no current item), `applyFilter` resets the cursor to
position 0. -/
theorem applyFilter_reset (mode : FilterMode) (s : State)
    (hne : filterIndices mode s.allItems ≠ [])
    (hmiss : ∀ p, s.view[s.currentIndex]? = some p → p ∉ filterIndices mode s.allItems) :
    (applyFilter mode s).currentIndex = 0 := by
  have hne' : (filterIndices mode s.allItems).isEmpty = false :=
    List.isEmpty_eq_false.mpr hne
  cases hcur : s.view[s.currentIndex]? with
  | none => simp [applyFilter, hcur, hne', Bool.false_eq_true]
  | some p =>
    have : p ∉ filterIndices mode s.allItems := hmiss p hcur
    simp [applyFilter, hcur, hne', Bool.false_eq_true, this]

/-- C6: `ChangeFilter(mode)` recomputes the view as exactly the master
indices whose kind matches the mode, in master order (strictly increasing
master indices); it touches neither the master list, the dispositions nor
the undo stack; when the new view is non-empty, the cursor lands on the
same underlying item if it is present, else on position 0; an empty new
view is just a state with an empty view. -/
theorem c6_changeFilter (s : State) (mode : FilterMode) :
    ((applyFilter mode s).view = filterIndices mode s.allItems ∧
     (∀ i : Nat, i ∈ (applyFilter mode s).view ↔
        ∃ h : i < s.allItems.length, matchesMode mode ((s.allItems.get ⟨i, h⟩).type) = true) ∧
     (applyFilter mode s).view.Pairwise (· < ·) ∧
     (applyFilter mode s).allItems = s.allItems ∧
     (applyFilter mode s).statuses = s.statuses ∧
     (applyFilter mode s).history = s.history) ∧
    ((applyFilter mode s).view ≠ [] →
      ∀ p : Nat, s.view[s.currentIndex]? = some p →
        (p ∈ (applyFilter mode s).view →
          (applyFilter mode s).view[(applyFilter mode s).currentIndex]? = some p) ∧
        (p ∉ (applyFilter mode s).view → (applyFilter mode s).currentIndex = 0)) ∧
    (s.view[s.currentIndex]? = none → (applyFilter mode s).view ≠ [] →
      (applyFilter mode s).currentIndex = 0) := by
  have hview := applyFilter_view mode s
  refine ⟨⟨hview, ?_, ?_, applyFilter_allItems mode s, applyFilter_statuses mode s,
      applyFilter_history mode s⟩, ?_, ?_⟩
  · intro i
    rw [hview]
    unfold filterIndices
    rw [List.mem_filter, List.mem_range]
    constructor
    · rintro ⟨hi, hm⟩
      refine ⟨hi, ?_⟩
      rwa [List.getD_eq_getElem _ _ hi] at hm
    · rintro ⟨hi, hm⟩
      refine ⟨hi, ?_⟩
      rwa [List.getD_eq_getElem _ _ hi]
  · rw [hview]
    unfold filterIndices
    exact List.Pairwise.sublist (List.filter_sublist _) (List.pairwise_lt_range _)
  · intro hne p hp
    rw [hview] at hne
    constructor
    · intro hmem
      rw [hview] at hmem
      exact applyFilter_found mode s p hp hmem
    · intro hmiss
      rw [hview] at hmiss
      exact applyFilter_reset mode s hne fun q hq => by
        rw [hp] at hq
        cases hq
        exact hmiss
  · intro hp hne
    rw [hview] at hne
    exact applyFilter_reset mode s hne fun q hq => by rw [hp] at hq; cases hq

def c6State : State :=
  { allItems :=
      [{ name := "i0", dateTaken := none, originalDate := none,
         lat := none, lon := none, type := Kind.image },
       { name := "v1", dateTaken := none, originalDate := none,
         lat := none, lon := none, type := Kind.video }],
    statuses := [none, none],
    view := [0, 1],
    currentIndex := 1,
    history := [] }

/-- Closed instance of `c6_changeFilter`: switching the two-item session to
the video view keeps the cursor on the video (master item 1), now at view
position 0. -/
theorem c6_changeFilter_witness :
    (applyFilter FilterMode.video c6State).view[
      (applyFilter FilterMode.video c6State).currentIndex]? = some 1 :=
  (((c6_changeFilter c6State FilterMode.video).2.1 (by decide) 1 (by decide)).1 (by decide))

/-- C7: starting from the all view, switching to a restrictive filter and
back to all puts the cursor back on the same underlying item, provided the
item survives the restrictive filter. -/
theorem c7_filter_round_trip (s : State) (mode : FilterMode) (p : Nat)
    (_hmode : mode ≠ FilterMode.all)
    (_hall : s.view = filterIndices FilterMode.all s.allItems)
    (hcur : s.view[s.currentIndex]? = some p)
    (hpres : p ∈ filterIndices mode s.allItems) :
    (applyFilter FilterMode.all (applyFilter mode s)).view[
      (applyFilter FilterMode.all (applyFilter mode s)).currentIndex]? = some p := by
  have h1 : (applyFilter mode s).view[(applyFilter mode s).currentIndex]? = some p :=
    applyFilter_found mode s p hcur hpres
  have hlt : p < s.allItems.length := mem_filterIndices_lt mode s.allItems p hpres
  have hpres2 : p ∈ filterIndices FilterMode.all (applyFilter mode s).allItems := by
    rw [applyFilter_allItems, filterIndices_all]
    exact List.mem_range.mpr hlt
  have h2 := applyFilter_found FilterMode.all (applyFilter mode s) p h1 hpres2
  exact h2

def c7State : State :=
  { allItems :=
      [{ name := "v0", dateTaken := none, originalDate := none,
         lat := none, lon := none, type := Kind.video },
       { name := "i1", dateTaken := none, originalDate := none,
         lat := none, lon := none, type := Kind.image }],
    statuses := [none, none],
    view := [0, 1],
    currentIndex := 0,
    history := [] }

/-- Closed instance of `c7_filter_round_trip`: all → video → all brings the
cursor back to the video item. -/
theorem c7_filter_round_trip_witness :
    (applyFilter FilterMode.all (applyFilter FilterMode.video c7State)).view[
      (applyFilter FilterMode.all (applyFilter FilterMode.video c7State)).currentIndex]?
      = some 0 :=
  c7_filter_round_trip c7State FilterMode.video 0 (by decide) (by decide)
    (by decide) (by decide)

/-! ### C8 — export payload -/

def scenB1 : Entry :=
  { name := "p1", dateTaken := some "2024-03-01", originalDate := none,
    lat := none, lon := none, type := Kind.image }

def scenB2 : Entry :=
  { name := "p2", dateTaken := some "2024-02-01", originalDate := none,
    lat := none, lon := none, type := Kind.image }

def scenB3 : Entry :=
  { name := "p3", dateTaken := some "2024-01-01", originalDate := none,
    lat := none, lon := none, type := Kind.image }

/-- Scenario B of the spec: load three items, mark item 1 `favorite` (the
cursor then auto-advances) and item 2 `delete`. -/
def scenarioB : State :=
  execCmds [Cmd.set Action.favorite, Cmd.set Action.delete]
    (loadManifest [scenB1, scenB2, scenB3] FilterMode.all)

/-- C8: on a non-empty view the export sends one DecisionRecord per item of
the unfiltered master list, in master order — record `i` carries master
index `i` together with that item's name, status, lat, lon, dateTaken,
originalDate and type.  In Scenario B (item 1 `favorite`, item 2 `delete`)
the sent decisions carry exactly 2 non-null statuses, in original manifest
order. -/
theorem c8_export (s : State) (hs : s.view ≠ []) :
    exportDecisions s = some (exportPayload s) ∧
    (exportPayload s).length = s.allItems.length ∧
    (∀ i : Nat, ∀ h : i < s.allItems.length,
      (exportPayload s)[i]? = some
        { index := i,
          name := (s.allItems.get ⟨i, h⟩).name,
          status := s.statuses.getD i none,
          lat := (s.allItems.get ⟨i, h⟩).lat,
          lon := (s.allItems.get ⟨i, h⟩).lon,
          dateTaken := (s.allItems.get ⟨i, h⟩).dateTaken,
          originalDate := (s.allItems.get ⟨i, h⟩).originalDate,
          type := (s.allItems.get ⟨i, h⟩).type }) ∧
    ((exportPayload scenarioB).map Decision.status
        = [some Action.favorite, some Action.delete, none] ∧
     ((exportPayload scenarioB).filter fun d => d.status ≠ none).length = 2 ∧
     (exportPayload scenarioB).map Decision.index = [0, 1, 2]) := by
  refine ⟨?_, ?_, ?_, by decide, by decide, by decide⟩
  · simp [exportDecisions, List.isEmpty_eq_false.mpr hs]
  · simp [exportPayload]
  · intro i h
    simp [exportPayload, List.enum, List.getElem?_eq_getElem h,
      List.getD_eq_getElem?_getD]

/-- Closed instance of `c8_export`: in Scenario B the export sends the full
payload, whose record 0 is item p1 marked favorite. -/
theorem c8_export_witness :
    exportDecisions scenarioB = some (exportPayload scenarioB) ∧
    (exportPayload scenarioB).length = scenarioB.allItems.length ∧
    ((exportPayload scenarioB).filter fun d => d.status ≠ none).length = 2 :=
  ⟨(c8_export scenarioB (by decide)).1, (c8_export scenarioB (by decide)).2.1,
   (c8_export scenarioB (by decide)).2.2.2.2.1⟩

/-! ### C5 — cursor stays in bounds -/

/-- The invariant of claim C5: a non-empty active view implies the cursor
is a valid view position. -/
def cursorOK (s : State) : Prop :=
  s.view ≠ [] → s.currentIndex < s.view.length

theorem cursorOK_next (s : State) (h : cursorOK s) : cursorOK (next s) := by
  unfold next
  by_cases hc : s.currentIndex < s.view.length - 1
  · rw [if_pos hc]
    intro _
    show s.currentIndex + 1 < s.view.length
    omega
  · rw [if_neg hc]
    exact h

theorem cursorOK_prev (s : State) (h : cursorOK s) : cursorOK (prev s) := by
  unfold prev
  by_cases hc : s.currentIndex > 0
  · rw [if_pos hc]
    intro hne
    show s.currentIndex - 1 < s.view.length
    have := h hne
    omega
  · rw [if_neg hc]
    exact h

theorem cursorOK_setStatus (a : Action) (s : State) (h : cursorOK s) :
    cursorOK (setStatus a s) := by
  unfold setStatus
  by_cases hemp : s.view.isEmpty = true
  · rw [if_pos hemp]
    exact h
  · rw [if_neg hemp]
    cases hcur : s.view[s.currentIndex]? with
    | none => exact h
    | some mi =>
      obtain ⟨hlt, -⟩ := List.getElem?_eq_some.mp hcur
      apply cursorOK_next
      split
      · intro _
        exact hlt
      · intro _
        exact hlt

theorem cursorOK_undo (s : State) (h : cursorOK s) : cursorOK (undo s) := by
  unfold undo
  cases hh : s.history with
  | nil => exact h
  | cons e rest =>
    dsimp only
    cases hcur : s.view[e.index]? with
    | some mi =>
      intro _
      show e.index < s.view.length
      exact (List.getElem?_eq_some.mp hcur).1
    | none => exact h

theorem cursorOK_applyFilter (mode : FilterMode) (s : State) :
    cursorOK (applyFilter mode s) := by
  unfold applyFilter
  by_cases hemp : (filterIndices mode s.allItems).isEmpty = true
  · rw [if_pos hemp]
    intro hne
    exact absurd (List.isEmpty_iff.mp hemp) hne
  · rw [if_neg hemp]
    have hf : (filterIndices mode s.allItems).isEmpty = false := by simpa using hemp
    have hpos : 0 < (filterIndices mode s.allItems).length :=
      List.length_pos.mpr (List.isEmpty_eq_false.mp hf)
    intro _
    dsimp only
    cases hcur : s.view[s.currentIndex]? with
    | none => exact hpos
    | some p =>
      dsimp only
      by_cases hmem : p ∈ filterIndices mode s.allItems
      · rw [if_pos hmem]
        exact List.indexOf_lt_length.mpr hmem
      · rw [if_neg hmem]
        exact hpos

theorem cursorOK_execCmd (c : Cmd) (s : State) (h : cursorOK s) :
    cursorOK (execCmd c s) := by
  cases c with
  | set a => exact cursorOK_setStatus a s h
  | fwd => exact cursorOK_next s h
  | bwd => exact cursorOK_prev s h
  | undoCmd => exact cursorOK_undo s h
  | filter m => exact cursorOK_applyFilter m s

theorem cursorOK_execCmds (cs : List Cmd) :
    ∀ s : State, cursorOK s → cursorOK (execCmds cs s) := by
  induction cs with
  | nil => exact fun s h => h
  | cons c cs ih => exact fun s h => ih _ (cursorOK_execCmd c s h)

/-- C5: after any reachable sequence of commands (SetDisposition, Next,
Prev, Undo, ChangeFilter in any order, including filter switches that
shrink the view), a non-empty active view implies the cursor lies in
`[0, length(view) − 1]`. -/
theorem c5_cursor_invariant (entries : List Entry) (mode : FilterMode) (cs : List Cmd)
    (hne : (execCmds cs (loadManifest entries mode)).view ≠ []) :
    (execCmds cs (loadManifest entries mode)).currentIndex
      < (execCmds cs (loadManifest entries mode)).view.length := by
  refine cursorOK_execCmds cs _ ?_ hne
  unfold loadManifest
  exact cursorOK_applyFilter mode _

/-! ### C3 — the undo law -/

theorem next_view (s : State) : (next s).view = s.view := by
  unfold next
  split <;> rfl

theorem next_statuses (s : State) : (next s).statuses = s.statuses := by
  unfold next
  split <;> rfl

theorem next_history (s : State) : (next s).history = s.history := by
  unfold next
  split <;> rfl

/-- What one popped history entry does to the statuses, relative to a view:
exactly the statuses write `undo` performs (a no-op when the recorded index
misses the view, where the JS handler throws after the pop). -/
def applyEntry (v : List Nat) (e : UndoEntry) (st : List (Option Action)) :
    List (Option Action) :=
  match v[e.index]? with
  | some mi => st.set mi e.prev
  | none => st

/-- Popping a whole history stack, most recent first. -/
def rewind (v : List Nat) : List UndoEntry → List (Option Action) → List (Option Action)
  | [], st => st
  | e :: rest, st => rewind v rest (applyEntry v e st)

/-- Applying `undo` as many times as the stack is deep computes `rewind` on
the statuses (the view never changes during undos). -/
theorem undoN_statuses (s : State) :
    (undoN s.history.length s).statuses = rewind s.view s.history s.statuses := by
  obtain ⟨it, st, v, ci, h⟩ := s
  induction h generalizing st ci with
  | nil => rfl
  | cons e rest ih =>
    show (undoN rest.length (undo ⟨it, st, v, ci, e :: rest⟩)).statuses
      = rewind v rest (applyEntry v e st)
    unfold undo
    dsimp only
    cases hcur : v[e.index]? with
    | some mi =>
      have ha : applyEntry v e st = st.set mi e.prev := by
        unfold applyEntry
        rw [hcur]
      rw [ha]
      exact ih (st.set mi e.prev) e.index
    | none =>
      have ha : applyEntry v e st = st := by
        unfold applyEntry
        rw [hcur]
      rw [ha]
      exact ih st ci

/-- One triage command (SetDisposition / Next / Prev) keeps the view, keeps
the statuses length, and keeps the rewind-value of the session: an
effective `setStatus` pushes exactly the entry that undoes its own write. -/
theorem triage_rewind (c : Cmd) (hc : isTriage c = true) (s : State)
    (hv : ∀ x ∈ s.view, x < s.statuses.length) :
    (execCmd c s).view = s.view ∧
    (execCmd c s).statuses.length = s.statuses.length ∧
    rewind s.view (execCmd c s).history (execCmd c s).statuses
      = rewind s.view s.history s.statuses := by
  cases c with
  | fwd =>
    simp only [execCmd]
    rw [next_view, next_statuses, next_history]
    exact ⟨rfl, rfl, rfl⟩
  | bwd =>
    simp only [execCmd]
    unfold prev
    split <;> exact ⟨rfl, rfl, rfl⟩
  | undoCmd => cases hc
  | filter m => cases hc
  | set a =>
    simp only [execCmd]
    unfold setStatus
    by_cases hemp : s.view.isEmpty = true
    · rw [if_pos hemp]
      exact ⟨rfl, rfl, rfl⟩
    · rw [if_neg hemp]
      cases hcur : s.view[s.currentIndex]? with
      | none => exact ⟨rfl, rfl, rfl⟩
      | some mi =>
        dsimp only
        have hmi : mi < s.statuses.length := hv mi (List.getElem?_mem hcur)
        by_cases hne : s.statuses.getD mi none ≠ some a
        · rw [if_pos hne]
          rw [next_view, next_statuses, next_history]
          refine ⟨rfl, by simp, ?_⟩
          show rewind s.view
              (⟨s.currentIndex, s.statuses.getD mi none⟩ :: s.history)
              (s.statuses.set mi (some a))
            = rewind s.view s.history s.statuses
          show rewind s.view s.history
              (applyEntry s.view ⟨s.currentIndex, s.statuses.getD mi none⟩
                (s.statuses.set mi (some a)))
            = rewind s.view s.history s.statuses
          have ha : applyEntry s.view ⟨s.currentIndex, s.statuses.getD mi none⟩
              (s.statuses.set mi (some a)) = s.statuses := by
            unfold applyEntry
            dsimp only
            rw [hcur]
            dsimp only
            rw [List.set_set, set_getD_self _ _ _ hmi]
          rw [ha]
        · rw [if_neg hne]
          rw [next_view, next_statuses, next_history]
          exact ⟨rfl, rfl, rfl⟩

/-- Lemma `triage_rewind` lifted to a whole command sequence. -/
theorem triage_trace (cs : List Cmd) (hcs : ∀ c ∈ cs, isTriage c = true) :
    ∀ s : State, (∀ x ∈ s.view, x < s.statuses.length) →
      (execCmds cs s).view = s.view ∧
      (execCmds cs s).statuses.length = s.statuses.length ∧
      rewind s.view (execCmds cs s).history (execCmds cs s).statuses
        = rewind s.view s.history s.statuses := by
  induction cs with
  | nil => exact fun s _ => ⟨rfl, rfl, rfl⟩
  | cons c cs ih =>
    intro s hv
    have h1 := triage_rewind c (hcs c (List.mem_cons_self c cs)) s hv
    have hv' : ∀ x ∈ (execCmd c s).view, x < (execCmd c s).statuses.length := by
      intro x hx
      rw [h1.2.1]
      exact hv x (h1.1 ▸ hx)
    have h2 := ih (fun d hd => hcs d (List.mem_cons_of_mem _ hd)) (execCmd c s) hv'
    have hstep : execCmds (c :: cs) s = execCmds cs (execCmd c s) := rfl
    refine ⟨?_, ?_, ?_⟩
    · rw [hstep, h2.1, h1.1]
    · rw [hstep, h2.2.1, h1.2.1]
    · rw [hstep]
      have h2r := h2.2.2
      rw [h1.1] at h2r
      rw [h2r, h1.2.2]

theorem loadManifest_view (entries : List Entry) (mode : FilterMode) :
    (loadManifest entries mode).view
      = filterIndices mode (List.insertionSort manifestOrder entries) := by
  unfold loadManifest
  exact applyFilter_view mode _

/-- C3: from a freshly loaded session (all dispositions undecided), any
sequence of SetDisposition commands interleaved with Next/Prev navigation
(no filter change, no interleaved undo) pushes one undo entry per effective
change; applying Undo that many times — the final undo-stack depth —
returns every item's disposition to undecided. -/
theorem c3_undo_law (entries : List Entry) (mode : FilterMode) (cs : List Cmd)
    (hcs : ∀ c ∈ cs, isTriage c = true) :
    (undoN (execCmds cs (loadManifest entries mode)).history.length
        (execCmds cs (loadManifest entries mode))).statuses
      = List.replicate entries.length none := by
  have hst : (loadManifest entries mode).statuses = List.replicate entries.length none :=
    loadManifest_statuses entries mode
  have hh : (loadManifest entries mode).history = [] :=
    loadManifest_history entries mode
  have hv0 : ∀ x ∈ (loadManifest entries mode).view,
      x < (loadManifest entries mode).statuses.length := by
    intro x hx
    rw [hst, List.length_replicate]
    rw [loadManifest_view] at hx
    have := mem_filterIndices_lt _ _ _ hx
    rwa [List.length_insertionSort] at this
  have ht := triage_trace cs hcs (loadManifest entries mode) hv0
  rw [undoN_statuses, ht.1, ht.2.2, hh, hst]
  rfl

/-- Closed instance of `c3_undo_law`: mark both items (revisiting the first
one twice via Prev), then three undos bring both back to undecided. -/
theorem c3_undo_law_witness :
    (undoN (execCmds
        [Cmd.set Action.like, Cmd.bwd, Cmd.set Action.delete, Cmd.set Action.favorite]
        (loadManifest [c2ImgA, c2VidB] FilterMode.all)).history.length
      (execCmds
        [Cmd.set Action.like, Cmd.bwd, Cmd.set Action.delete, Cmd.set Action.favorite]
        (loadManifest [c2ImgA, c2VidB] FilterMode.all))).statuses
      = List.replicate 2 none :=
  c3_undo_law [c2ImgA, c2VidB] FilterMode.all
    [Cmd.set Action.like, Cmd.bwd, Cmd.set Action.delete, Cmd.set Action.favorite]
    (by decide)

/-- Closed instance of `c5_cursor_invariant` after a command sequence that
marks, navigates, undoes and switches to a shrinking filter. -/
theorem c5_cursor_invariant_witness :
    (execCmds [Cmd.set Action.like, Cmd.fwd, Cmd.undoCmd, Cmd.filter FilterMode.video]
        (loadManifest [c2ImgA, c2VidB] FilterMode.all)).currentIndex
      < (execCmds [Cmd.set Action.like, Cmd.fwd, Cmd.undoCmd, Cmd.filter FilterMode.video]
        (loadManifest [c2ImgA, c2VidB] FilterMode.all)).view.length :=
  c5_cursor_invariant [c2ImgA, c2VidB] FilterMode.all
    [Cmd.set Action.like, Cmd.fwd, Cmd.undoCmd, Cmd.filter FilterMode.video] (by decide)

end PictureSorter
